import Mathlib

/-! Verification of the trador trading-bot platform.

The repository ships a React/TypeScript dashboard (`ui/`) together with
documentation of a Python simulation core (fill model, portfolio ledger,
risk engine, simulation loop).  The TypeScript sources are embedded
directly; the simulation core is not present in the source tree, so its
operations are modelled from the specification where a claim needs them.
Prices and quantities are embedded as rationals. -/

/-! ## UI data model (ui/src/types/bots.ts, ui/src/types/metrics.ts) -/

/-- `Position` from ui/src/types/bots.ts: one open exposure as shown to the UI. -/
structure Position where
  symbol : String
  quantity : Rat
  price : Rat
  side : String
deriving Repr, DecidableEq

/-- `BotStatus` from ui/src/types/bots.ts: the status record served by
`GET /bots/id/status`. -/
structure BotStatus where
  pnl : Rat
  positions : List Position
  balance : Rat
  equity : Rat
deriving Repr, DecidableEq

/-- `Trade` from ui/src/types/bots.ts.  The optional `type` field is named
`ttype` here; timestamps are embedded as naturals (milliseconds since epoch,
the value of `new Date(t).getTime()`). -/
structure Trade where
  timestamp : Nat
  symbol : String
  side : String
  price : Rat
  quantity : Rat
  ttype : Option String
  pnl : Option Rat
deriving Repr, DecidableEq

/-- `RiskEvaluationDetails` from ui/src/types/bots.ts; the open index
signature is embedded as an association list of extra entries. -/
structure RiskEvaluationDetails where
  value : Option Rat
  threshold : Option Rat
  message : Option String
  extra : List (String × String)
deriving Repr, DecidableEq

/-- `RiskEvaluation` from ui/src/types/bots.ts. -/
structure RiskEvaluation where
  rule_name : String
  is_violated : Bool
  details : RiskEvaluationDetails
deriving Repr, DecidableEq

/-- `BotRisk` from ui/src/types/bots.ts: the record served by
`GET /bots/id/risk`. -/
structure BotRisk where
  evaluations : List RiskEvaluation
  kill_switch_activated : Bool
deriving Repr, DecidableEq

/-! ## Trade history pagination (TradesHistory component) -/

/-- `TRADES_PER_PAGE` constant of the TradesHistory component. -/
def TRADES_PER_PAGE : Nat := 5

/-- The comparator `(a, b) => new Date(b.timestamp).getTime() - new Date(a.timestamp).getTime()`
used to sort trades newest-first: `a` may precede `b` iff `b` is not newer. -/
def tsDescLe (a b : Trade) : Bool := b.timestamp ≤ a.timestamp

/-- `[...trades].sort(comparator)` of the TradesHistory component (a stable
sort by descending timestamp). -/
def sortDescByTs (ts : List Trade) : List Trade := ts.mergeSort tsDescLe

/-- `paginatedTrades` of the TradesHistory component: sort newest-first, then
`slice(startIndex, startIndex + TRADES_PER_PAGE)` with
`startIndex = (currentPage - 1) * TRADES_PER_PAGE`; `[]` when trades are
not loaded. -/
def paginatedTrades (trades : Option (List Trade)) (currentPage : Nat) : List Trade :=
  match trades with
  | none => []
  | some ts =>
      ((sortDescByTs ts).drop ((currentPage - 1) * TRADES_PER_PAGE)).take TRADES_PER_PAGE

/-- `totalPages = trades ? Math.ceil(trades.length / TRADES_PER_PAGE) : 0`. -/
def totalPages (trades : Option (List Trade)) : Nat :=
  match trades with
  | none => 0
  | some ts => (ts.length + TRADES_PER_PAGE - 1) / TRADES_PER_PAGE

/-- `goToPage`: `setCurrentPage(Math.max(1, Math.min(page, totalPages)))`.
The page argument is an arbitrary integer; the function returns the new
current-page state. -/
def goToPage (trades : Option (List Trade)) (page : Int) : Int :=
  max 1 (min page (totalPages trades : Int))

/-- `useState(1)`: the initial current-page state of the component. -/
def initialCurrentPage : Int := 1

/-! ## API client (fetchBotTrades in ui/src/lib/api.ts) -/

/-- The part of an axios response observed by the client: its HTTP status. -/
structure AxiosResponse where
  status : Nat
deriving Repr, DecidableEq

/-- An axios request error; `response` is absent when no response arrived. -/
structure AxiosError where
  response : Option AxiosResponse
deriving Repr, DecidableEq

/-- Outcome of one HTTP request as seen by the `try`/`catch` in the client. -/
inductive HttpOutcome (α : Type) where
  | success (data : α)
  | failure (error : AxiosError)
deriving Repr, DecidableEq

/-- `fetchBotTrades`: returns the response data on success; on a failure
whose response status is 404 returns `[]`; re-throws every other failure. -/
def fetchBotTrades (outcome : HttpOutcome (List Trade)) : Except AxiosError (List Trade) :=
  match outcome with
  | .success d => .ok d
  | .failure e =>
      match e.response with
      | some resp => if resp.status = 404 then .ok [] else .error e
      | none => .error e

/-- Whether an outcome is a failure whose response carries status 404. -/
def isNotFound404 (outcome : HttpOutcome (List Trade)) : Bool :=
  match outcome with
  | .success _ => false
  | .failure e => e.response.any (fun r => r.status == 404)

/-! ## Per-trade PnL display (TradesHistory component) -/

/-- Result record of `calculateTradePnL`: `{ pnl, isLive }`. -/
structure PnLResult where
  pnl : Option Rat
  isLive : Bool
deriving Repr, DecidableEq

/-- `getPositionStatus`: an explicit trade type wins; otherwise fall back to
whether the bot currently holds a position in the trade's symbol
(`unknown` when the status query has not loaded). -/
def getPositionStatus (botStatus : Option BotStatus) (trade : Trade) : String :=
  if trade.ttype = some "open" then "open"
  else if trade.ttype = some "close" then "closed"
  else
    match botStatus with
    | none => "unknown"
    | some bs =>
        if bs.positions.any (fun pos => pos.symbol == trade.symbol) then "open" else "closed"

/-- The open-position branch of `calculateTradePnL`: when the position status
is `open` and the bot status lists a position for the trade's symbol, the
live unrealized PnL is `(currentPrice - entryPrice) * quantity` for a buy and
`(entryPrice - currentPrice) * quantity` for a sell; `none` means the branch
falls through. -/
def openPnL (botStatus : Option BotStatus) (trade : Trade) : Option PnLResult :=
  if getPositionStatus botStatus trade = "open" then
    match botStatus with
    | none => none
    | some bs =>
        match bs.positions.find? (fun pos => pos.symbol == trade.symbol) with
        | none => none
        | some position =>
            let currentPrice := position.price
            let entryPrice := trade.price
            let unrealizedPnL : Rat :=
              if trade.side = "buy" then (currentPrice - entryPrice) * trade.quantity
              else if trade.side = "sell" then (entryPrice - currentPrice) * trade.quantity
              else 0
            some ⟨some unrealizedPnL, true⟩
  else none

/-- The completed-pair branch of `calculateTradePnL`: a sell whose immediately
preceding trade in the list is a buy of the same symbol gets
`(trade.price - prevTrade.price) * Math.min(trade.quantity, prevTrade.quantity)`;
`none` means the branch falls through. -/
def pairPnL (ts : List Trade) (trade : Trade) (index : Nat) : Option PnLResult :=
  if trade.side = "sell" ∧ 0 < index then
    match ts[index - 1]? with
    | some prevTrade =>
        if prevTrade.side = "buy" ∧ prevTrade.symbol = trade.symbol then
          some ⟨some ((trade.price - prevTrade.price) * min trade.quantity prevTrade.quantity),
                false⟩
        else none
    | none => none
  else none

/-- `calculateTradePnL` of the TradesHistory component: `{null,false}` when
trades are not loaded; an explicit nonzero `trade.pnl` is returned as realized
PnL; otherwise the open-position branch, then the completed-pair branch, then
`{null,false}`. -/
def calculateTradePnL (trades : Option (List Trade)) (botStatus : Option BotStatus)
    (trade : Trade) (index : Nat) : PnLResult :=
  match trades with
  | none => ⟨none, false⟩
  | some ts =>
      match trade.pnl with
      | some p =>
          if p = 0 then
            ((openPnL botStatus trade).orElse (fun _ => pairPnL ts trade index)).getD ⟨none, false⟩
          else ⟨some p, false⟩
      | none =>
          ((openPnL botStatus trade).orElse (fun _ => pairPnL ts trade index)).getD ⟨none, false⟩

/-! ## Bot creation form (BotModal component) -/

/-- A JavaScript value as it occurs in the form's `parameters` record. -/
inductive JSValue where
  | vStr (s : String)
  | vNum (q : Rat)
  | vBool (b : Bool)
deriving Repr, DecidableEq

/-- Model of the JavaScript builtin `String.prototype.trim`. -/
def jsTrim (s : String) : String :=
  String.mk (((s.toList.dropWhile Char.isWhitespace).reverse.dropWhile Char.isWhitespace).reverse)

/-- Model of the JavaScript builtin `Number()` restricted to the values the
form produces: numbers convert to themselves, booleans to 0 or 1, and a
string converts iff it is a nonempty run of decimal digits (every other
string is NaN, embedded as `none`). -/
def toNumber : JSValue → Option Rat
  | .vNum q => some q
  | .vBool b => some (if b then 1 else 0)
  | .vStr s =>
      if s.toList ≠ [] ∧ s.toList.all Char.isDigit then
        some ((s.toList.foldl (fun n c => 10 * n + (c.toNat - 48)) 0 : Nat) : Rat)
      else none

/-- `value === undefined || value === null || value === ''` (absent values
are embedded as `none`). -/
def isEmptyVal : Option JSValue → Bool
  | none => true
  | some (.vStr s) => s = ""
  | some _ => false

/-- The regular expression test from `validateForm`:
every character of the bot id is a letter, digit, hyphen or underscore. -/
def validIdChars (s : String) : Bool :=
  s.toList.all (fun c => c.isAlphanum || c == '_' || c == '-')

/-- `Number.isInteger(Number(value))`: NaN is not an integer. -/
def isIntegerVal (v : JSValue) : Bool :=
  match toNumber v with
  | some q => q.den == 1
  | none => false

/-- `Number(value) < bound`; every comparison with NaN is false. -/
def numLtB (v : JSValue) (bound : Rat) : Bool :=
  match toNumber v with
  | some q => decide (q < bound)
  | none => false

/-- `Number(value) > bound`; every comparison with NaN is false. -/
def numGtB (v : JSValue) (bound : Rat) : Bool :=
  match toNumber v with
  | some q => decide (bound < q)
  | none => false

/-- One entry of `selectedStrategy.parameter_schema` (ui/src/types/strategies.ts);
only the fields read by `validateForm` are embedded, and `dflt` is `none`
exactly when the schema object has no `default` key. -/
structure ParamSchema where
  ptype : String
  minimum : Option Rat
  maximum : Option Rat
  dflt : Option JSValue
deriving Repr, DecidableEq

/-- Whether the modal is in create or edit mode. -/
inductive FormMode where
  | create
  | edit
deriving Repr, DecidableEq

/-- The `formData` state of the BotModal component; `parameters` is the
record of strategy parameter values keyed by name. -/
structure FormData where
  id : String
  strategy : String
  symbol : String
  mode : String
  initial_balance : Rat
  parameters : List (String × JSValue)
deriving Repr, DecidableEq

/-- `formData.parameters[paramName]` (`none` when absent). -/
def lookupParam (fd : FormData) (nm : String) : Option JSValue :=
  (fd.parameters.find? (fun kv => kv.1 == nm)).map (fun kv => kv.2)

/-- The bot-id checks of `validateForm`; error entries are embedded by their
key only, since only emptiness of the error record is observed. -/
def idErrors (mode : FormMode) (fd : FormData) : List String :=
  if jsTrim fd.id = "" ∧ mode = .create then ["id"]
  else if fd.id ≠ "" ∧ ¬ validIdChars fd.id then ["id"]
  else []

/-- The per-parameter checks of `validateForm` for one schema entry: a missing
value without a schema default is required; a present value runs the
type-and-range `else if` chain. -/
def schemaErrors (value : Option JSValue) (nm : String) (sch : ParamSchema) : List String :=
  if isEmptyVal value then
    if sch.dflt = none then [nm] else []
  else
    match value with
    | none => []
    | some v =>
        if sch.ptype = "number" ∧ toNumber v = none then [nm]
        else if sch.ptype = "integer" ∧ ¬ isIntegerVal v then [nm]
        else if (match sch.minimum with | some m => numLtB v m | none => false) then [nm]
        else if (match sch.maximum with | some m => numGtB v m | none => false) then [nm]
        else []

/-- `validateForm` of the BotModal component: collect all errors, succeed iff
there are none. -/
def validateForm (mode : FormMode) (schema : List (String × ParamSchema)) (fd : FormData) : Bool :=
  (idErrors mode fd ++
   (if fd.strategy = "" then ["strategy"] else []) ++
   (if fd.symbol = "" then ["symbol"] else []) ++
   (if fd.initial_balance ≤ 0 then ["initial_balance"] else []) ++
   schema.flatMap (fun entry => schemaErrors (lookupParam fd entry.1) entry.1 entry.2)).isEmpty

/-- The request a form submission sends: a create-bot POST or an
update-config PUT. -/
inductive SubmitAction where
  | createBot (id strategy symbol mode : String) (initial_balance : Rat)
      (parameters : List (String × JSValue))
  | updateBot (botId strategy symbol mode : String) (initial_balance : Rat)
      (parameters : List (String × JSValue))
deriving Repr, DecidableEq

/-- `handleSubmit` of the BotModal component: returns early (no mutation runs)
unless `validateForm` succeeds, then issues the create or update request. -/
def handleSubmit (mode : FormMode) (schema : List (String × ParamSchema)) (botId : String)
    (fd : FormData) : Option SubmitAction :=
  if validateForm mode schema fd then
    some (match mode with
      | .create => .createBot fd.id fd.strategy fd.symbol fd.mode fd.initial_balance fd.parameters
      | .edit => .updateBot botId fd.strategy fd.symbol fd.mode fd.initial_balance fd.parameters)
  else none

/-! ## Portfolio Ledger

Modelled from the spec: the Portfolio Ledger of the Simulation and
Accounting Engine is documented in the repository only by READMEs
(backtest/, portfolio_risk/, execution_engine/); its implementation is not
part of the source tree, so the definitions below follow the wording of
spec sections 4.2 and 3 (Position, Fill). -/

namespace Ledger

/-- Modelled from the spec: a fill side (`buy` or `sell`). -/
inductive Side where
  | buy
  | sell
deriving Repr, DecidableEq

/-- Modelled from the spec: a position direction (`long` or `short`). -/
inductive PosSide where
  | long
  | short
deriving Repr, DecidableEq

/-- Sign of a fill side in cash accounting: a buy pays, a sell receives. -/
def sideSign : Side → Rat
  | .buy => 1
  | .sell => -1

/-- The direction a fill opens: a buy opens a long, a sell opens a short. -/
def openSide : Side → PosSide
  | .buy => .long
  | .sell => .short

/-- Modelled from the spec: `direction_sign`, +1 for a long and -1 for a short. -/
def dirSign : PosSide → Rat
  | .long => 1
  | .short => -1

/-- Modelled from the spec: a per-symbol open position with quantity-weighted
average entry price (spec section 3, Position).  Leverage is omitted: no
claim mentions it. -/
structure Position where
  symbol : String
  pside : PosSide
  qty : Rat
  entry : Rat
deriving Repr, DecidableEq

/-- Modelled from the spec: a fill record (spec section 3, Fill). -/
structure Fill where
  symbol : String
  side : Side
  price : Rat
  qty : Rat
  fee : Rat
deriving Repr, DecidableEq

/-- Modelled from the spec: unrealized PnL of one open position,
`(mark_price - entry_price) * quantity * direction_sign` (spec section 4.2,
mark_to_market). -/
def unrealizedPnL (marks : String → Rat) (p : Position) : Rat :=
  (marks p.symbol - p.entry) * p.qty * dirSign p.pside

/-- Sum of the unrealized PnL of all open positions. -/
def sumUnrealized (marks : String → Rat) (ps : List Position) : Rat :=
  (ps.map (unrealizedPnL marks)).sum

/-- Modelled from the spec: the ledger state — cash, open positions,
cumulative realized PnL, cumulative fees, the latest mark prices, and the
equity field maintained by fills and mark-to-market passes. -/
structure State where
  cash : Rat
  positions : List Position
  realized : Rat
  feesPaid : Rat
  marks : String → Rat
  equity : Rat

/-- The ledger of a freshly started run: initial cash, no positions, no PnL. -/
def initState (cash0 : Rat) (marks0 : String → Rat) : State :=
  { cash := cash0, positions := [], realized := 0, feesPaid := 0,
    marks := marks0, equity := cash0 }

/-- The open position for a symbol, if any. -/
def findPos (sym : String) (ps : List Position) : Option Position :=
  ps.find? (fun p => p.symbol == sym)

/-- All positions of other symbols. -/
def removePos (sym : String) (ps : List Position) : List Position :=
  ps.filter (fun p => p.symbol != sym)

/-- Modelled from the spec: the position-list update of `apply_fill`
(spec section 4.2) — weighted-average entry on same-direction adds,
reduction on smaller opposing fills, removal on exact closes, and an atomic
flip to the opposite direction when an opposing fill exceeds the held
quantity. -/
def fillPositions (s : State) (f : Fill) : List Position :=
  let others := removePos f.symbol s.positions
  match findPos f.symbol s.positions with
  | none => ⟨f.symbol, openSide f.side, f.qty, f.price⟩ :: others
  | some pos =>
      if openSide f.side = pos.pside then
        ⟨f.symbol, pos.pside, pos.qty + f.qty,
          (pos.entry * pos.qty + f.price * f.qty) / (pos.qty + f.qty)⟩ :: others
      else if f.qty < pos.qty then
        ⟨f.symbol, pos.pside, pos.qty - f.qty, pos.entry⟩ :: others
      else if pos.qty < f.qty then
        ⟨f.symbol, openSide f.side, f.qty - pos.qty, f.price⟩ :: others
      else others

/-- Modelled from the spec: the realized-PnL update of `apply_fill` — a
reducing, closing or flipping fill books
`(fill_price - entry_price) * closed_quantity * direction_sign` immediately
(spec section 4.2). -/
def fillRealized (s : State) (f : Fill) : Rat :=
  match findPos f.symbol s.positions with
  | none => s.realized
  | some pos =>
      if openSide f.side = pos.pside then s.realized
      else if f.qty < pos.qty then
        s.realized + (f.price - pos.entry) * f.qty * dirSign pos.pside
      else
        s.realized + (f.price - pos.entry) * pos.qty * dirSign pos.pside

/-- Modelled from the spec: `apply_fill` (spec section 4.2) — cash is
adjusted by `-(side == buy ? 1 : -1) * price * quantity - fee`, the position
for the fill's symbol is updated, realized PnL is booked, and equity stays
recomputed as cash plus the unrealized PnL of the open positions at the
latest marks. -/
def applyFill (s : State) (f : Fill) : State :=
  let cash1 := s.cash - sideSign f.side * f.price * f.qty - f.fee
  { cash := cash1,
    positions := fillPositions s f,
    realized := fillRealized s f,
    feesPaid := s.feesPaid + f.fee,
    marks := s.marks,
    equity := cash1 + sumUnrealized s.marks (fillPositions s f) }

/-- Modelled from the spec: `mark_to_market(prices)` — store the new marks
and recompute equity as cash plus the sum of the unrealized PnL of the open
positions (spec section 4.2). -/
def markToMarket (s : State) (prices : String → Rat) : State :=
  { s with marks := prices, equity := s.cash + sumUnrealized prices s.positions }

/-- The only two operations that touch ledger fields: applying a fill and a
mark-to-market pass. -/
inductive Event where
  | fill (f : Fill)
  | mark (prices : String → Rat)

/-- One ledger update. -/
def step (s : State) (e : Event) : State :=
  match e with
  | .fill f => applyFill s f
  | .mark prices => markToMarket s prices

/-- The ledger after a sequence of fills and mark-to-market passes. -/
def runEvents (s : State) (es : List Event) : State := es.foldl step s

/-- The accounting invariant of spec sections 4.2 and 8:
`equity = cash + sum(position unrealized PnL)`. -/
def equityInvariant (s : State) : Prop :=
  s.equity = s.cash + sumUnrealized s.marks s.positions

end Ledger

/-! ## Fill Model and Simulation Loop

Modelled from the spec: the Fill Model and the event-driven Simulation Loop
are documented in the repository only by READMEs (backtest/,
execution_engine/); the definitions below follow spec sections 4.1 and 4.4. -/

/-- Modelled from the spec: one OHLCV bar (spec section 3, Bar). -/
structure Bar where
  timestamp : Nat
  symbol : String
  openPrice : Rat
  high : Rat
  low : Rat
  close : Rat
  volume : Rat
deriving Repr, DecidableEq

/-- Modelled from the spec: whether a limit order crosses within a bar — a
buy limit fills if `low ≤ limit_price`, a sell limit fills at `limit_price`
if `high ≥ limit_price` (spec section 4.1). -/
def limitFills (side : Ledger.Side) (limitPrice : Rat) (bar : Bar) : Bool :=
  match side with
  | .buy => bar.low ≤ limitPrice
  | .sell => limitPrice ≤ bar.high

/-- Modelled from the spec: a market or limit order type (spec section 3,
Signal). -/
inductive OrderType where
  | market
  | limit
deriving Repr, DecidableEq

/-- Modelled from the spec: a strategy trade intent (spec section 3, Signal).
Time-in-force is omitted: the loop below runs every order against the
current bar only (same-bar mode). -/
structure Signal where
  symbol : String
  side : Ledger.Side
  orderType : OrderType
  quantity : Rat
  limitPrice : Option Rat
deriving Repr, DecidableEq

/-- Modelled from the spec: the configuration of one simulation run — the
external strategy collaborator, the risk engine's pre- and post-trade
checks, and the slippage and fee rates (spec sections 4.1, 4.3, 4.4). -/
structure SimConfig where
  strategy : List Bar → List Ledger.Position → Option Signal
  preTradeOk : Ledger.State → Signal → Bool
  postTradeCritical : Ledger.State → Bool
  slippage : Rat
  feeRate : Rat

/-- Modelled from the spec: the fills an accepted signal produces against the
current bar (spec section 4.1, same-bar mode): a market order fills fully at
the bar close with slippage adverse to the side and fee
`fee_rate * fill_price * fill_quantity`; a limit order fills at the limit
price iff the bar range crosses it. -/
def fillsOf (cfg : SimConfig) (sig : Signal) (bar : Bar) : List Ledger.Fill :=
  match sig.orderType with
  | .market =>
      let price := bar.close * (1 + Ledger.sideSign sig.side * cfg.slippage)
      [⟨sig.symbol, sig.side, price, sig.quantity, cfg.feeRate * price * sig.quantity⟩]
  | .limit =>
      match sig.limitPrice with
      | none => []
      | some lp =>
          if limitFills sig.side lp bar then
            [⟨sig.symbol, sig.side, lp, sig.quantity, cfg.feeRate * lp * sig.quantity⟩]
          else []

/-- Modelled from the spec: one equity-curve sample appended per bar
(spec section 3, PortfolioSnapshot). -/
structure Snapshot where
  timestamp : Nat
  cash : Rat
  equity : Rat
  realized : Rat
deriving Repr, DecidableEq

/-- Modelled from the spec: the Simulation Loop state — the ledger, the
append-only fill and snapshot histories, the bar history fed to the
strategy, and the halted flag set by the kill-switch. -/
structure SimState where
  ledger : Ledger.State
  fills : List Ledger.Fill
  snapshots : List Snapshot
  history : List Bar
  halted : Bool

/-- Modelled from the spec: the synthetic closing market order used to
flatten one open position when the kill-switch fires (spec section 4.3). -/
def closeFill (cfg : SimConfig) (bar : Bar) (p : Ledger.Position) : Ledger.Fill :=
  let side : Ledger.Side := match p.pside with | .long => .sell | .short => .buy
  ⟨p.symbol, side, bar.close, p.qty, cfg.feeRate * bar.close * p.qty⟩

/-- Modelled from the spec: one iteration of the Simulation Loop
(spec section 4.4) — invoke the strategy, pre-check the signal, fill the
accepted order against the current bar, apply the fills, mark to market at
the bar close, append a snapshot, then post-check; on a critical violation
flatten all positions and halt. -/
def processBar (cfg : SimConfig) (st : SimState) (bar : Bar) : SimState :=
  if st.halted then st
  else
    let history1 := st.history ++ [bar]
    let newFills :=
      match cfg.strategy history1 st.ledger.positions with
      | none => []
      | some sig => if cfg.preTradeOk st.ledger sig then fillsOf cfg sig bar else []
    let ledger1 := newFills.foldl Ledger.applyFill st.ledger
    let marks1 := fun sym => if sym == bar.symbol then bar.close else ledger1.marks sym
    let ledger2 := Ledger.markToMarket ledger1 marks1
    let snap : Snapshot := ⟨bar.timestamp, ledger2.cash, ledger2.equity, ledger2.realized⟩
    if cfg.postTradeCritical ledger2 then
      let flat := ledger2.positions.map (closeFill cfg bar)
      let ledger3 := Ledger.markToMarket (flat.foldl Ledger.applyFill ledger2) marks1
      { ledger := ledger3, fills := st.fills ++ newFills ++ flat,
        snapshots := st.snapshots ++ [snap], history := history1, halted := true }
    else
      { ledger := ledger2, fills := st.fills ++ newFills,
        snapshots := st.snapshots ++ [snap], history := history1, halted := false }

/-- The simulation as a function of its inputs: fold the per-bar pipeline
over the bar sequence. -/
def runSim (cfg : SimConfig) (st : SimState) (bars : List Bar) : SimState :=
  bars.foldl (processBar cfg) st

/-- A run of the Simulation Loop as a relation: the loop consumed the bar
sequence one bar at a time, each bar's full pipeline completing before the
next bar begins (spec section 5). -/
inductive SimRun (cfg : SimConfig) : SimState → List Bar → SimState → Prop
  | done (s : SimState) : SimRun cfg s [] s
  | step (s : SimState) (b : Bar) (bs : List Bar) (t : SimState)
      (h : SimRun cfg (processBar cfg s b) bs t) : SimRun cfg s (b :: bs) t
/-! ## Supporting lemmas -/

theorem Ledger.applyFill_equityInvariant (s : Ledger.State) (f : Ledger.Fill) :
    Ledger.equityInvariant (Ledger.applyFill s f) := by
  simp [Ledger.applyFill, Ledger.equityInvariant]

theorem Ledger.markToMarket_equityInvariant (s : Ledger.State) (prices : String → Rat) :
    Ledger.equityInvariant (Ledger.markToMarket s prices) := by
  simp [Ledger.markToMarket, Ledger.equityInvariant]

theorem Ledger.step_equityInvariant (s : Ledger.State) (e : Ledger.Event) :
    Ledger.equityInvariant (Ledger.step s e) := by
  cases e with
  | fill f => exact Ledger.applyFill_equityInvariant s f
  | mark prices => exact Ledger.markToMarket_equityInvariant s prices

theorem Ledger.runEvents_equityInvariant (es : List Ledger.Event) (s : Ledger.State)
    (h : Ledger.equityInvariant s) :
    Ledger.equityInvariant (Ledger.runEvents s es) := by
  induction es generalizing s with
  | nil => exact h
  | cons e es ih =>
      simpa [Ledger.runEvents] using ih (Ledger.step s e) (Ledger.step_equityInvariant s e)

/-- Claim C1: after every fill applied to the Portfolio Ledger and every
mark-to-market pass, for every sequence of such events, the stored equity
equals cash plus the sum of the unrealized PnL of all open positions; and
with no fill or mark-to-market event the ledger state does not change at
all, so no equity, cash or position field is ever changed except by those
two operations. -/
theorem C1_equity_invariant (cash0 : Rat) (marks0 : String → Rat) (es : List Ledger.Event) :
    Ledger.equityInvariant (Ledger.runEvents (Ledger.initState cash0 marks0) es) ∧
    (∀ s : Ledger.State, Ledger.runEvents s [] = s) := by
  refine ⟨Ledger.runEvents_equityInvariant es _ ?_, fun s => rfl⟩
  simp [Ledger.initState, Ledger.equityInvariant, Ledger.sumUnrealized]

/-- Claim C4: a buy limit order fills iff the bar low is at most the limit
price, a sell limit order fills iff the bar high is at least the limit
price; in particular a buy limit at 100 fills on a bar with low 95 and
high 105 and does not fill on a bar with low 101 and high 110. -/
theorem C4_limit_fill_rule :
    (∀ (lp : Rat) (bar : Bar), limitFills .buy lp bar = true ↔ bar.low ≤ lp) ∧
    (∀ (lp : Rat) (bar : Bar), limitFills .sell lp bar = true ↔ lp ≤ bar.high) ∧
    limitFills .buy 100 ⟨0, "BTCUSDT", 100, 105, 95, 100, 0⟩ = true ∧
    limitFills .buy 100 ⟨0, "BTCUSDT", 105, 110, 101, 105, 0⟩ = false := by
  refine ⟨fun lp bar => ?_, fun lp bar => ?_, by decide, by decide⟩
  · simp [limitFills]
  · simp [limitFills]

theorem simRun_eq_runSim (cfg : SimConfig) {s : SimState} {bars : List Bar} {t : SimState}
    (h : SimRun cfg s bars t) : t = runSim cfg s bars := by
  induction h with
  | done s => simp [runSim]
  | step s b bs t h ih => simpa [runSim] using ih

/-- Claim C5: the Simulation Loop is deterministic — two runs on the same
configuration, initial state and bar sequence end in the same state, and in
particular produce identical fill sequences and identical portfolio
snapshot sequences. -/
theorem C5_sim_determinism (cfg : SimConfig) (s : SimState) (bars : List Bar)
    (t1 t2 : SimState) (h1 : SimRun cfg s bars t1) (h2 : SimRun cfg s bars t2) :
    t1.fills = t2.fills ∧ t1.snapshots = t2.snapshots := by
  rw [simRun_eq_runSim cfg h1, simRun_eq_runSim cfg h2]
  exact ⟨rfl, rfl⟩

def simConfigW : SimConfig :=
  { strategy := fun _ _ => none, preTradeOk := fun _ _ => true,
    postTradeCritical := fun _ => false, slippage := 0, feeRate := 0 }

def simStateW : SimState :=
  { ledger := Ledger.initState 1000 (fun _ => 0), fills := [], snapshots := [],
    history := [], halted := false }

def barW : Bar := ⟨1, "BTCUSDT", 100, 105, 95, 100, 10⟩

/-- Witness for claim C5: a concrete one-bar run, used for both runs. -/
theorem C5_sim_determinism_witness :
    (processBar simConfigW simStateW barW).fills = (processBar simConfigW simStateW barW).fills ∧
    (processBar simConfigW simStateW barW).snapshots
      = (processBar simConfigW simStateW barW).snapshots :=
  C5_sim_determinism simConfigW simStateW [barW] _ _
    (SimRun.step _ _ _ _ (SimRun.done _)) (SimRun.step _ _ _ _ (SimRun.done _))

/-- Claim C6: the status, risk and risk-evaluation records exposed to the UI
layer have exactly the promised fields — a BotStatus is exactly its pnl,
positions, balance and equity, a BotRisk exactly its evaluations and
kill_switch_activated, a RiskEvaluation exactly its rule_name, is_violated
and details, and is_violated is a boolean. -/
theorem C6_query_shapes :
    (∀ s : BotStatus, s = ⟨s.pnl, s.positions, s.balance, s.equity⟩) ∧
    (∀ r : BotRisk, r = ⟨r.evaluations, r.kill_switch_activated⟩) ∧
    (∀ e : RiskEvaluation, e = ⟨e.rule_name, e.is_violated, e.details⟩) ∧
    (∀ e : RiskEvaluation, e.is_violated = true ∨ e.is_violated = false) := by
  refine ⟨fun s => rfl, fun r => rfl, fun e => rfl, fun e => ?_⟩
  cases h : e.is_violated
  · exact Or.inr rfl
  · exact Or.inl rfl
/-- Claim C10: for every integer page argument and every trade list,
goToPage clamps the new current page to at least 1 (as is the initial
current-page state), and for a loaded non-empty trade list to at most
totalPages, which is the number of 5-trade pages: it covers the whole list
while the previous page count does not. -/
theorem C10_page_clamp (trades : Option (List Trade)) (page : Int) :
    1 ≤ goToPage trades page ∧
    initialCurrentPage = 1 ∧
    (∀ ts : List Trade, trades = some ts → ts ≠ [] →
      goToPage trades page ≤ (totalPages trades : Int) ∧
      ts.length ≤ TRADES_PER_PAGE * totalPages trades ∧
      TRADES_PER_PAGE * (totalPages trades - 1) < ts.length) := by
  refine ⟨le_max_left 1 _, rfl, ?_⟩
  rintro ts rfl hne
  have hlen : 0 < ts.length := List.length_pos.mpr hne
  have hN : 1 ≤ totalPages (some ts) := by
    simp only [totalPages, TRADES_PER_PAGE]
    omega
  refine ⟨max_le (by exact_mod_cast hN) (min_le_right _ _), ?_, ?_⟩
  · simp only [totalPages, TRADES_PER_PAGE]
    omega
  · simp only [totalPages, TRADES_PER_PAGE]
    omega

def tradeW : Trade := ⟨1, "BTCUSDT", "buy", 100, 1, some "open", none⟩

/-- Witness for claim C10: one trade, a page request of 5. -/
theorem C10_page_clamp_witness :
    1 ≤ goToPage (some [tradeW]) 5 ∧
    ([tradeW] ≠ ([] : List Trade)) ∧
    goToPage (some [tradeW]) 5 ≤ (totalPages (some [tradeW]) : Int) :=
  ⟨(C10_page_clamp (some [tradeW]) 5).1, by simp,
   (((C10_page_clamp (some [tradeW]) 5).2.2) [tradeW] rfl (by simp)).1⟩

/-- Claim C8 counterexample: a successful request whose body is the empty
list also returns the empty list, yet it is not a request that failed with
status 404 — so the empty list is not returned exactly on 404 failures. -/
theorem C8_fetch_counterexample :
    fetchBotTrades (HttpOutcome.success []) = Except.ok [] ∧
    isNotFound404 (HttpOutcome.success []) = false :=
  ⟨rfl, rfl⟩

/-- Claim C8 (amended): a successful response is returned unchanged (hence
an empty successful response also yields the empty list); a failure whose
response status is 404 yields the empty list; every other failure is
re-thrown to the caller. -/
theorem C8_fetch_amended (d : List Trade) (e : AxiosError) :
    fetchBotTrades (HttpOutcome.success d) = Except.ok d ∧
    (isNotFound404 (HttpOutcome.failure e) = true →
      fetchBotTrades (HttpOutcome.failure e) = Except.ok []) ∧
    (isNotFound404 (HttpOutcome.failure e) = false →
      fetchBotTrades (HttpOutcome.failure e) = Except.error e) := by
  obtain ⟨r⟩ := e
  refine ⟨rfl, ?_, ?_⟩ <;> cases r with
  | none => simp [isNotFound404, fetchBotTrades]
  | some resp =>
      by_cases h : resp.status = 404 <;> simp [isNotFound404, fetchBotTrades, h]

/-- Witness for claim C8: a 404 failure, a 500 failure and a successful
response with one trade. -/
theorem C8_fetch_amended_witness :
    fetchBotTrades (HttpOutcome.failure ⟨some ⟨404⟩⟩) = Except.ok [] ∧
    fetchBotTrades (HttpOutcome.failure ⟨some ⟨500⟩⟩) = Except.error ⟨some ⟨500⟩⟩ ∧
    fetchBotTrades (HttpOutcome.success [tradeW]) = Except.ok [tradeW] :=
  ⟨(C8_fetch_amended [] ⟨some ⟨404⟩⟩).2.1 (by decide),
   (C8_fetch_amended [] ⟨some ⟨500⟩⟩).2.2 (by decide),
   (C8_fetch_amended [tradeW] ⟨some ⟨404⟩⟩).1⟩

/-- Claim C7: for a loaded non-empty trade list and a page number of at
least 1, the displayed page is the slice from (p-1)*5 to p*5 of the trade
list sorted by timestamp newest-first; the sorted list is a permutation of
the trades and is ordered by non-increasing timestamp, and so is every
displayed page, which holds at most 5 trades. -/
theorem tsDescLe_trans : ∀ (a b c : Trade), tsDescLe a b → tsDescLe b c → tsDescLe a c := by
  intro a b c hab hbc
  simp only [tsDescLe, decide_eq_true_eq] at *
  omega

theorem tsDescLe_total : ∀ (a b : Trade), tsDescLe a b || tsDescLe b a := by
  intro a b
  simp only [tsDescLe, Bool.or_eq_true, decide_eq_true_eq]
  omega

theorem C7_trade_pagination (ts : List Trade) (p : Nat) (hne : ts ≠ []) (hp : 1 ≤ p) :
    paginatedTrades (some ts) p
      = ((sortDescByTs ts).drop ((p - 1) * TRADES_PER_PAGE)).take TRADES_PER_PAGE ∧
    (sortDescByTs ts).Perm ts ∧
    (sortDescByTs ts).Pairwise (fun a b => b.timestamp ≤ a.timestamp) ∧
    (paginatedTrades (some ts) p).length ≤ TRADES_PER_PAGE ∧
    (paginatedTrades (some ts) p).Pairwise (fun a b => b.timestamp ≤ a.timestamp) := by
  have hsorted : (sortDescByTs ts).Pairwise (fun a b => b.timestamp ≤ a.timestamp) := by
    have h := List.sorted_mergeSort tsDescLe_trans tsDescLe_total ts
    exact h.imp (fun hab => by simpa [tsDescLe] using hab)
  refine ⟨rfl, List.mergeSort_perm ts tsDescLe, hsorted, List.length_take_le _ _, ?_⟩
  refine List.Pairwise.sublist ?_ hsorted
  exact (List.take_sublist _ _).trans (List.drop_sublist _ _)

def tradeW7a : Trade := ⟨30, "BTCUSDT", "buy", 100, 1, some "open", none⟩

def tradeW7b : Trade := ⟨10, "ETHUSDT", "buy", 10, 2, some "open", none⟩

def tradeW7c : Trade := ⟨20, "BTCUSDT", "sell", 110, 1, some "close", some 10⟩

/-- Witness for claim C7: three concrete trades displayed on page 1. -/
theorem C7_trade_pagination_witness :
    ([tradeW7a, tradeW7b, tradeW7c] ≠ ([] : List Trade)) ∧ 1 ≤ 1 ∧
    (paginatedTrades (some [tradeW7a, tradeW7b, tradeW7c]) 1).Pairwise
      (fun a b => b.timestamp ≤ a.timestamp) :=
  ⟨by simp, le_refl 1,
   (C7_trade_pagination [tradeW7a, tradeW7b, tradeW7c] 1 (by simp) (le_refl 1)).2.2.2.2⟩

/-- Claim C2: for a displayed trade of an open position with no explicit
realized PnL, where the bot status lists a position for the trade's symbol,
the unrealized PnL computed for display is (mark - entry) * quantity when
the trade side is buy (long) and (entry - mark) * quantity when the trade
side is sell (short), with the position's current price as mark and the
trade price as entry, flagged as live. -/
theorem C2_unrealized_display (ts : List Trade) (bs : BotStatus) (trade : Trade)
    (index : Nat) (position : Position)
    (hpnl : trade.pnl = none) (hty : trade.ttype = some "open")
    (hfind : bs.positions.find? (fun pos => pos.symbol == trade.symbol) = some position)
    (hq : 0 < trade.quantity) :
    (trade.side = "buy" →
      calculateTradePnL (some ts) (some bs) trade index
        = ⟨some ((position.price - trade.price) * trade.quantity), true⟩) ∧
    (trade.side = "sell" →
      calculateTradePnL (some ts) (some bs) trade index
        = ⟨some ((trade.price - position.price) * trade.quantity), true⟩) := by
  constructor <;> intro hside <;>
    simp [calculateTradePnL, hpnl, openPnL, getPositionStatus, hty, hfind, hside,
      Option.orElse]

def positionW2 : Position := ⟨"BTCUSDT", 2, 110, "long"⟩

def statusW2 : BotStatus := ⟨0, [positionW2], 1000, 1020⟩

def tradeW2 : Trade := ⟨5, "BTCUSDT", "buy", 100, 2, some "open", none⟩

/-- Witness for claim C2: a long BTC position marked at 110 entered at 100
with quantity 2 displays a live unrealized PnL of 20. -/
theorem C2_unrealized_display_witness :
    calculateTradePnL (some [tradeW2]) (some statusW2) tradeW2 0
      = ⟨some (((110 : Rat) - 100) * 2), true⟩ :=
  (C2_unrealized_display [tradeW2] statusW2 tradeW2 0 positionW2
    rfl rfl (by decide) (by decide)).1 rfl
def tradeC3open : Trade := ⟨100, "BTCUSDT", "sell", 100, 1, some "open", none⟩

def tradeC3close : Trade := ⟨200, "BTCUSDT", "buy", 90, 1, some "close", none⟩

/-- Claim C3 counterexample: a closing buy (covering a short opened by a
sell at 100 and closed at 90, realized PnL 10 by the claimed formula) whose
pnl field is absent displays no PnL at all in the trade list — the fallback
only handles a sell immediately preceded by a buy of the same symbol. -/
theorem C3_realized_counterexample :
    calculateTradePnL (some [tradeC3open, tradeC3close]) none tradeC3close 1 = ⟨none, false⟩ ∧
    (tradeC3close.price - tradeC3open.price) * tradeC3close.quantity
        * Ledger.dirSign .short = 10 ∧
    (none : Option Rat) ≠ some 10 := by
  refine ⟨by decide, by norm_num [tradeC3close, tradeC3open, Ledger.dirSign], by decide⟩

/-- Claim C3 (amended): the Portfolio Ledger books realized PnL on every
reducing, closing or flipping fill as
(fill_price - entry_price) * closed_quantity * direction_sign against the
position's quantity-weighted average entry price; the trade-list display,
however, recomputes a fallback PnL of
(trade.price - prev.price) * min(quantities) only for a sell trade whose
immediately preceding trade is a buy of the same symbol, and displays no
PnL for any other closing trade without an explicit nonzero pnl field. -/
theorem C3_realized_pnl_amended :
    (∀ (s : Ledger.State) (f : Ledger.Fill) (pos : Ledger.Position),
        Ledger.findPos f.symbol s.positions = some pos →
        Ledger.openSide f.side ≠ pos.pside →
        (Ledger.applyFill s f).realized
          = s.realized + (f.price - pos.entry) * min f.qty pos.qty
              * Ledger.dirSign pos.pside) ∧
    (∀ (ts : List Trade) (trade prevTrade : Trade) (bs : Option BotStatus) (index : Nat),
        trade.pnl = none → trade.ttype = some "close" → trade.side = "sell" →
        0 < index → ts[index - 1]? = some prevTrade →
        prevTrade.side = "buy" → prevTrade.symbol = trade.symbol →
        calculateTradePnL (some ts) bs trade index
          = ⟨some ((trade.price - prevTrade.price)
                * min trade.quantity prevTrade.quantity), false⟩) ∧
    (∀ (ts : List Trade) (trade : Trade) (bs : Option BotStatus) (index : Nat),
        trade.pnl = none → trade.ttype = some "close" → trade.side = "buy" →
        calculateTradePnL (some ts) bs trade index = ⟨none, false⟩) := by
  refine ⟨?_, ?_, ?_⟩
  · intro s f pos hfind hne
    simp only [Ledger.applyFill, Ledger.fillRealized, hfind]
    rw [if_neg hne]
    by_cases hlt : f.qty < pos.qty
    · rw [if_pos hlt, min_eq_left hlt.le]
    · rw [if_neg hlt, min_eq_right (not_lt.mp hlt)]
  · intro ts trade prevTrade bs index hpnl hty hside hidx hget hps hsym
    simp [calculateTradePnL, hpnl, openPnL, getPositionStatus, hty, pairPnL, hside,
      hidx, hget, hps, hsym, Option.orElse]
  · intro ts trade bs index hpnl hty hside
    simp [calculateTradePnL, hpnl, openPnL, getPositionStatus, hty, pairPnL, hside,
      Option.orElse]

def posC3 : Ledger.Position := ⟨"BTCUSDT", .long, 2, 100⟩

def stateC3 : Ledger.State :=
  { cash := 800, positions := [posC3], realized := 0, feesPaid := 0,
    marks := fun _ => 100, equity := 800 }

def fillC3 : Ledger.Fill := ⟨"BTCUSDT", .sell, 120, 1, 0⟩

def tradeC3buy : Trade := ⟨10, "ETHUSDT", "buy", 10, 1, some "open", none⟩

def tradeC3sell : Trade := ⟨20, "ETHUSDT", "sell", 13, 1, some "close", none⟩

/-- Witness for claim C3: a partial close of a long position books
(120 - 100) * 1, the UI fallback prices a buy-then-sell pair off the
previous trade, and a closing buy displays nothing. -/
theorem C3_realized_pnl_amended_witness :
    (Ledger.applyFill stateC3 fillC3).realized
      = stateC3.realized + (fillC3.price - posC3.entry) * min fillC3.qty posC3.qty
          * Ledger.dirSign posC3.pside ∧
    calculateTradePnL (some [tradeC3buy, tradeC3sell]) none tradeC3sell 1
      = ⟨some ((tradeC3sell.price - tradeC3buy.price)
            * min tradeC3sell.quantity tradeC3buy.quantity), false⟩ ∧
    calculateTradePnL (some [tradeC3open, tradeC3close]) none tradeC3close 1
      = ⟨none, false⟩ :=
  ⟨C3_realized_pnl_amended.1 stateC3 fillC3 posC3 rfl (by decide),
   C3_realized_pnl_amended.2.1 [tradeC3buy, tradeC3sell] tradeC3sell tradeC3buy none 1
     rfl rfl rfl (by decide) rfl rfl rfl,
   C3_realized_pnl_amended.2.2 [tradeC3open, tradeC3close] tradeC3close none 1 rfl rfl rfl⟩
theorem schemaErrors_required (value : Option JSValue) (nm : String) (sch : ParamSchema)
    (h1 : isEmptyVal value = true) (h2 : sch.dflt = none) :
    schemaErrors value nm sch = [nm] := by
  simp [schemaErrors, h1, h2]

theorem schemaErrors_bounds_ne_nil (nm : String) (sch : ParamSchema) (q : Rat)
    (hb : (∃ m, sch.minimum = some m ∧ q < m) ∨ (∃ m, sch.maximum = some m ∧ m < q)) :
    schemaErrors (some (JSValue.vNum q)) nm sch ≠ [] := by
  have hempty : isEmptyVal (some (JSValue.vNum q)) = false := rfl
  have hc1 : ¬ (sch.ptype = "number" ∧ toNumber (JSValue.vNum q) = none) := by
    simp [toNumber]
  simp only [schemaErrors, hempty, Bool.false_eq_true, if_false]
  rw [if_neg hc1]
  by_cases hc2 : sch.ptype = "integer" ∧ ¬ isIntegerVal (JSValue.vNum q)
  · rw [if_pos hc2]; simp
  · rw [if_neg hc2]
    rcases hb with ⟨m, hmin, hqm⟩ | ⟨m, hmax, hmq⟩
    · have hlt : (match sch.minimum with
          | some m2 => numLtB (JSValue.vNum q) m2
          | none => false) = true := by
        rw [hmin]; simp [numLtB, toNumber, hqm]
      simp only [hlt, if_true]; simp
    · by_cases hc3 : (match sch.minimum with
          | some m2 => numLtB (JSValue.vNum q) m2
          | none => false) = true
      · simp only [hc3, if_true]; simp
      · simp only [Bool.not_eq_true] at hc3
        simp only [hc3, Bool.false_eq_true, if_false]
        have hgt : (match sch.maximum with
            | some m2 => numGtB (JSValue.vNum q) m2
            | none => false) = true := by
          rw [hmax]; simp [numGtB, toNumber, hmq]
        simp only [hgt, if_true]; simp

/-- Claim C9: in create mode, a form whose bot id is empty or contains a
character outside letters, digits, hyphen and underscore, or whose strategy
or symbol is empty, or whose initial balance is not positive, or that lacks
a value for a schema parameter without a default, or whose provided numeric
parameter lies outside its minimum-maximum bounds, fails validateForm, and
submitting it sends no create or update request. -/
theorem C9_invalid_form_blocks_submit
    (schema : List (String × ParamSchema)) (fd : FormData) (botId : String)
    (h : fd.id = "" ∨
         (fd.id ≠ "" ∧ validIdChars fd.id = false) ∨
         fd.strategy = "" ∨ fd.symbol = "" ∨ fd.initial_balance ≤ 0 ∨
         (∃ entry, entry ∈ schema ∧ entry.2.dflt = none ∧
            isEmptyVal (lookupParam fd entry.1) = true) ∨
         (∃ entry q, entry ∈ schema ∧ lookupParam fd entry.1 = some (JSValue.vNum q) ∧
            ((∃ m, entry.2.minimum = some m ∧ q < m) ∨
             (∃ m, entry.2.maximum = some m ∧ m < q)))) :
    validateForm .create schema fd = false ∧
    handleSubmit .create schema botId fd = none := by
  have hv : validateForm .create schema fd = false := by
    rw [Bool.eq_false_iff]
    intro hemp
    rw [validateForm, List.isEmpty_eq_true] at hemp
    simp only [List.append_eq_nil] at hemp
    obtain ⟨⟨⟨⟨hA, hB⟩, hC⟩, hD⟩, hE⟩ := hemp
    rcases h with h | h | h | h | h | ⟨entry, hmem, hdflt, hempv⟩ | ⟨entry, q, hmem, hlook, hb⟩
    · have htrim : jsTrim fd.id = "" := by rw [h]; decide
      simp [idErrors, htrim] at hA
    · by_cases htrim : jsTrim fd.id = ""
      · simp [idErrors, htrim] at hA
      · simp [idErrors, htrim, h.1, h.2] at hA
    · simp [h] at hB
    · simp [h] at hC
    · simp [h] at hD
    · have heq := schemaErrors_required (lookupParam fd entry.1) entry.1 entry.2 hempv hdflt
      have hmemf : entry.1 ∈ schema.flatMap
          (fun e => schemaErrors (lookupParam fd e.1) e.1 e.2) :=
        List.mem_flatMap.mpr ⟨entry, hmem, by rw [heq]; exact List.mem_singleton_self _⟩
      rw [hE] at hmemf
      exact List.not_mem_nil _ hmemf
    · have hne := schemaErrors_bounds_ne_nil entry.1 entry.2 q hb
      obtain ⟨x, hx⟩ := List.exists_mem_of_ne_nil _ hne
      have hmemf : x ∈ schema.flatMap
          (fun e => schemaErrors (lookupParam fd e.1) e.1 e.2) :=
        List.mem_flatMap.mpr ⟨entry, hmem, by rw [hlook]; exact hx⟩
      rw [hE] at hmemf
      exact List.not_mem_nil _ hmemf
  exact ⟨hv, by simp [handleSubmit, hv]⟩

def formW9 : FormData :=
  { id := "my bot!", strategy := "SmaCrossover", symbol := "BTCUSDT", mode := "paper",
    initial_balance := 1000, parameters := [] }

/-- Witness for claim C9: a create-mode form whose bot id contains a space
and an exclamation mark is rejected and submits nothing. -/
theorem C9_invalid_form_blocks_submit_witness :
    validateForm .create [] formW9 = false ∧ handleSubmit .create [] "" formW9 = none :=
  C9_invalid_form_blocks_submit [] formW9 ""
    (Or.inr (Or.inl (by refine ⟨by decide, by decide⟩)))

/-! ## Supporting theorems for the ledger model

Beyond the equity invariant of claim C1, these check the substance of the
modelled fill accounting: the netting invariant (at most one position per
symbol), positivity of position quantities, and conservation of value
through the weighted-average entry bookkeeping. -/

namespace Ledger

def uniqSyms (ps : List Position) : Prop := ps.Pairwise (fun p q => p.symbol ≠ q.symbol)

def allQtyPos (ps : List Position) : Prop := ∀ p ∈ ps, 0 < p.qty

def basis (p : Position) : Rat := dirSign p.pside * p.entry * p.qty

def sumBasis (ps : List Position) : Rat := (ps.map basis).sum

def eventQtyPos : Event → Prop
  | .fill f => 0 < f.qty
  | .mark _ => True

theorem removePos_symbol_ne (sym : String) (ps : List Position) :
    ∀ p ∈ removePos sym ps, p.symbol ≠ sym := by
  intro p hp
  have := List.of_mem_filter hp
  simpa using this

theorem removePos_uniq (sym : String) (ps : List Position) (hu : uniqSyms ps) :
    uniqSyms (removePos sym ps) :=
  hu.sublist (List.filter_sublist ps)

theorem removePos_allQtyPos (sym : String) (ps : List Position) (hq : allQtyPos ps) :
    allQtyPos (removePos sym ps) :=
  fun p hp => hq p (List.mem_of_mem_filter hp)

theorem sumBasis_removePos (sym : String) (ps : List Position) (pos : Position)
    (hu : uniqSyms ps) (hfind : findPos sym ps = some pos) :
    sumBasis ps = basis pos + sumBasis (removePos sym ps) := by
  induction ps with
  | nil => simp [findPos] at hfind
  | cons hd tl ih =>
      rw [uniqSyms, List.pairwise_cons] at hu
      by_cases hhd : hd.symbol = sym
      · have hpos : pos = hd := by
          have h1 : findPos sym (hd :: tl) = some hd := by
            rw [findPos, List.find?_cons_of_pos _ (by simp [hhd])]
          exact (Option.some.inj (h1.symm.trans hfind)).symm
        have htl : removePos sym (hd :: tl) = tl := by
          simp only [removePos, List.filter_cons]
          rw [if_neg (by simp [hhd])]
          refine List.filter_eq_self.mpr ?_
          intro p hp
          simpa using Ne.symm (hhd ▸ hu.1 p hp)
        rw [htl, hpos]
        simp [sumBasis]
      · have hfind2 : findPos sym tl = some pos := by
          have h1 : findPos sym (hd :: tl) = findPos sym tl := by
            rw [findPos, findPos, List.find?_cons_of_neg _ (by simp [hhd])]
          exact h1.symm.trans hfind
        have htl : removePos sym (hd :: tl) = hd :: removePos sym tl := by
          simp only [removePos, List.filter_cons]
          rw [if_pos (by simp [hhd])]
        rw [htl]
        have hrec := ih hu.2 hfind2
        simp only [sumBasis, List.map_cons, List.sum_cons] at *
        rw [hrec]
        ring

theorem fillPositions_uniq (s : State) (f : Fill) (hu : uniqSyms s.positions) :
    uniqSyms (fillPositions s f) := by
  have hrem := removePos_symbol_ne f.symbol s.positions
  have hruniq := removePos_uniq f.symbol s.positions hu
  cases hfind : findPos f.symbol s.positions with
  | none =>
      simp only [fillPositions, hfind]
      exact List.Pairwise.cons (fun q hq he => hrem q hq he.symm) hruniq
  | some pos =>
      simp only [fillPositions, hfind]
      by_cases h1 : openSide f.side = pos.pside
      · rw [if_pos h1]
        exact List.Pairwise.cons (fun q hq he => hrem q hq he.symm) hruniq
      · rw [if_neg h1]
        by_cases h2 : f.qty < pos.qty
        · rw [if_pos h2]
          exact List.Pairwise.cons (fun q hq he => hrem q hq he.symm) hruniq
        · rw [if_neg h2]
          by_cases h3 : pos.qty < f.qty
          · rw [if_pos h3]
            exact List.Pairwise.cons (fun q hq he => hrem q hq he.symm) hruniq
          · rw [if_neg h3]
            exact hruniq

theorem fillPositions_allQtyPos (s : State) (f : Fill) (hq : allQtyPos s.positions)
    (hf : 0 < f.qty) : allQtyPos (fillPositions s f) := by
  have hrq := removePos_allQtyPos f.symbol s.positions hq
  cases hfind : findPos f.symbol s.positions with
  | none =>
      simp only [fillPositions, hfind]
      intro p hp
      rcases List.mem_cons.mp hp with h | h
      · subst h; exact hf
      · exact hrq p h
  | some pos =>
      have hposmem : pos ∈ s.positions := List.mem_of_find?_eq_some hfind
      have hpq : 0 < pos.qty := hq pos hposmem
      simp only [fillPositions, hfind]
      by_cases h1 : openSide f.side = pos.pside
      · rw [if_pos h1]
        intro p hp
        rcases List.mem_cons.mp hp with h | h
        · subst h; exact add_pos hpq hf
        · exact hrq p h
      · rw [if_neg h1]
        by_cases h2 : f.qty < pos.qty
        · rw [if_pos h2]
          intro p hp
          rcases List.mem_cons.mp hp with h | h
          · subst h; simpa using sub_pos.mpr h2
          · exact hrq p h
        · rw [if_neg h2]
          by_cases h3 : pos.qty < f.qty
          · rw [if_pos h3]
            intro p hp
            rcases List.mem_cons.mp hp with h | h
            · subst h; simpa using sub_pos.mpr h3
            · exact hrq p h
          · rw [if_neg h3]
            exact hrq

end Ledger

namespace Ledger

theorem dirSign_openSide (sd : Side) : dirSign (openSide sd) = sideSign sd := by
  cases sd <;> rfl

theorem sideSign_of_opposite (sd : Side) (ps : PosSide) (h : openSide sd ≠ ps) :
    sideSign sd = -dirSign ps := by
  cases sd <;> cases ps <;> simp_all [openSide, sideSign, dirSign]

theorem removePos_of_findPos_none (sym : String) (ps : List Position)
    (h : findPos sym ps = none) : removePos sym ps = ps := by
  refine List.filter_eq_self.mpr ?_
  intro p hp
  have hne := List.find?_eq_none.mp h p hp
  simpa using hne

/-- The conserved ledger quantity: cash plus the signed cost basis of the
open positions plus the fees paid so far, net of the realized PnL booked so
far.  Every fill leaves it unchanged. -/
def value (s : State) : Rat := s.cash + sumBasis s.positions + s.feesPaid - s.realized

theorem applyFill_value (s : State) (f : Fill)
    (hu : uniqSyms s.positions) (hq : allQtyPos s.positions) (hf : 0 < f.qty) :
    value (applyFill s f) = value s := by
  cases hfind : findPos f.symbol s.positions with
  | none =>
      have hrem := removePos_of_findPos_none f.symbol s.positions hfind
      simp only [value, applyFill, fillPositions, fillRealized, hfind, hrem, sumBasis,
        List.map_cons, List.sum_cons, basis, dirSign_openSide]
      ring
  | some pos =>
      have hposmem : pos ∈ s.positions := List.mem_of_find?_eq_some hfind
      have hpq : 0 < pos.qty := hq pos hposmem
      have hsum := sumBasis_removePos f.symbol s.positions pos hu hfind
      by_cases h1 : openSide f.side = pos.pside
      · have hss : sideSign f.side = dirSign pos.pside := by
          rw [← dirSign_openSide, h1]
        have h0 : pos.qty + f.qty ≠ 0 := ne_of_gt (add_pos hpq hf)
        have hdiv : dirSign pos.pside * ((pos.entry * pos.qty + f.price * f.qty)
              / (pos.qty + f.qty)) * (pos.qty + f.qty)
            = dirSign pos.pside * (pos.entry * pos.qty + f.price * f.qty) := by
          rw [mul_assoc, div_mul_cancel₀ _ h0]
        simp only [value, applyFill, fillPositions, fillRealized, hfind, if_pos h1, hss]
        rw [hsum]
        simp only [sumBasis, List.map_cons, List.sum_cons, basis]
        rw [hdiv]
        ring
      · have hss : sideSign f.side = -dirSign pos.pside := sideSign_of_opposite f.side pos.pside h1
        by_cases h2 : f.qty < pos.qty
        · simp only [value, applyFill, fillPositions, fillRealized, hfind, if_neg h1, if_pos h2,
            hss]
          rw [hsum]
          simp only [sumBasis, List.map_cons, List.sum_cons, basis]
          ring
        · by_cases h3 : pos.qty < f.qty
          · simp only [value, applyFill, fillPositions, fillRealized, hfind, if_neg h1,
              if_neg h2, if_pos h3, hss, dirSign_openSide]
            rw [hsum]
            simp only [sumBasis, List.map_cons, List.sum_cons, basis, dirSign_openSide, hss]
            ring
          · have hqe : f.qty = pos.qty := le_antisymm (not_lt.mp h3) (not_lt.mp h2)
            simp only [value, applyFill, fillPositions, fillRealized, hfind, if_neg h1,
              if_neg h2, if_neg h3, hss]
            rw [hsum]
            simp only [sumBasis, basis]
            rw [hqe]
            ring

theorem markToMarket_value (s : State) (prices : String → Rat) :
    value (markToMarket s prices) = value s := rfl

/-- The full per-step state invariant: distinct symbols and positive
quantities. -/
def stateInv (s : State) : Prop := uniqSyms s.positions ∧ allQtyPos s.positions

theorem applyFill_stateInv (s : State) (f : Fill) (h : stateInv s) (hf : 0 < f.qty) :
    stateInv (applyFill s f) :=
  ⟨fillPositions_uniq s f h.1, fillPositions_allQtyPos s f h.2 hf⟩

theorem step_value (s : State) (e : Event) (h : stateInv s) (he : eventQtyPos e) :
    value (step s e) = value s ∧ stateInv (step s e) := by
  cases e with
  | fill f => exact ⟨applyFill_value s f h.1 h.2 he, applyFill_stateInv s f h he⟩
  | mark prices => exact ⟨rfl, h⟩

theorem runEvents_value (es : List Event) (s : State) (h : stateInv s)
    (he : ∀ e ∈ es, eventQtyPos e) :
    value (runEvents s es) = value s ∧ stateInv (runEvents s es) := by
  induction es generalizing s with
  | nil => exact ⟨rfl, h⟩
  | cons e es ih =>
      have hstep := step_value s e h (he e (List.mem_cons_self e es))
      have := ih (step s e) hstep.2 (fun x hx => he x (List.mem_cons_of_mem e hx))
      exact ⟨by simpa [runEvents] using this.1.trans hstep.1, by simpa [runEvents] using this.2⟩

/-- Accounting soundness of the modelled ledger: across every sequence of
positive-quantity fills and mark-to-market passes, cash plus the signed cost
basis of the open positions plus fees paid minus realized PnL stays equal to
the initial cash — realized PnL is booked exactly once and never changes
retroactively — and the run preserves the netting invariant (one position
per symbol) and positive position quantities. -/
theorem accounting_identity (cash0 : Rat) (marks0 : String → Rat) (es : List Event)
    (he : ∀ e ∈ es, eventQtyPos e) :
    value (runEvents (initState cash0 marks0) es) = cash0 ∧
    uniqSyms (runEvents (initState cash0 marks0) es).positions ∧
    allQtyPos (runEvents (initState cash0 marks0) es).positions := by
  have hinv : stateInv (initState cash0 marks0) := by
    constructor
    · simp [initState, uniqSyms]
    · intro p hp; simp [initState] at hp
  have h := runEvents_value es (initState cash0 marks0) hinv he
  refine ⟨h.1.trans ?_, h.2.1, h.2.2⟩
  simp [value, initState, sumBasis]

end Ledger
